import Mathlib

/-!
Verification development for the AKRS equipment-inventory harvesting and
reconciliation scripts.  The JavaScript sources are embedded shallowly:
pure string manipulation is translated to functions on Lean strings and
character lists, asynchronous I/O (page fetches, detail fetches) is
modelled by explicit oracle parameters, and machine numbers appearing in
the overlap computation are modelled by an explicit JavaScript-number type
over exact rationals.  JavaScript case conversion is modelled at the ASCII
level, which covers every input appearing in the development.
-/

namespace Akrs

/-! Basic JavaScript string primitives used throughout the scripts. -/

/-- Character class of the JavaScript regular-expression escape backslash-s
and of the characters stripped by JavaScript trim: whitespace and line
terminators. -/
def isSpaceJS (c : Char) : Bool :=
  c == ' ' || c == '\t' || c == '\n' || c == '\r' ||
  c.val == 0x0b || c.val == 0x0c || c.val == 0xa0 || c.val == 0x1680 ||
  (decide (0x2000 ≤ c.val) && decide (c.val ≤ 0x200a)) ||
  c.val == 0x2028 || c.val == 0x2029 || c.val == 0x202f || c.val == 0x205f ||
  c.val == 0x3000 || c.val == 0xfeff

/-- JavaScript trim: remove whitespace from both ends of the string. -/
def jsTrimList (l : List Char) : List Char :=
  ((l.dropWhile isSpaceJS).reverse.dropWhile isSpaceJS).reverse

/-- JavaScript replace of each maximal whitespace run by a single space,
the global replacement of one-or-more whitespace with one space used by the
scripts for text cleanup. -/
def collapseWS (l : List Char) : List Char :=
  l.foldr
    (fun c acc =>
      if isSpaceJS c then
        match acc with
        | ' ' :: _ => acc
        | _ => ' ' :: acc
      else c :: acc) []

/-- JavaScript toUpperCase, modelled on ASCII letters. -/
def jsToUpper (l : List Char) : List Char :=
  l.map Char.toUpper

/-- JavaScript toLowerCase, modelled on ASCII letters. -/
def jsToLower (l : List Char) : List Char :=
  l.map Char.toLower

/-- Test whether the second list starts with the first. -/
def startsWithList : List Char → List Char → Bool
  | [], _ => true
  | _ :: _, [] => false
  | p :: ps, c :: cs => p == c && startsWithList ps cs

/-- JavaScript includes: substring containment. -/
def containsSub (pat : List Char) : List Char → Bool
  | [] => pat.isEmpty
  | c :: rest => startsWithList pat (c :: rest) || containsSub pat rest

/-! Cross-source matcher (analyze-combined script): normalize,
createMatchKey and detectDuplicates. -/

/-- Source function normalize: uppercase, trim, then collapse internal
whitespace; the empty string (falsy in JavaScript) is returned unchanged. -/
def normalize (s : String) : String :=
  if s = "" then ""
  else String.mk (collapseWS (jsTrimList (jsToUpper s.data)))

/-- Record fields consumed by the matcher and the aggregation; a field the
spreadsheet row lacks is modelled as the empty string, matching the
JavaScript fallback of item.field or the empty string. -/
structure Item where
  year : String
  make : String
  model : String
  location : String
deriving DecidableEq, Repr

/-- Source function createMatchKey: the composite fuzzy key
year, normalized make, normalized model, normalized location joined by
vertical bars.  The year component is not normalized in the source. -/
def createMatchKey (item : Item) : String :=
  let year := item.year
  let make := normalize item.make
  let model := normalize item.model
  let location := normalize item.location
  year ++ "|" ++ make ++ "|" ++ model ++ "|" ++ location

/-- JavaScript Map.set on an association list: overwrite an existing key,
otherwise append. -/
def mapSet {α : Type} (m : List (String × α)) (k : String) (v : α) :
    List (String × α) :=
  match m with
  | [] => [(k, v)]
  | (k0, v0) :: rest => if k0 = k then (k, v) :: rest else (k0, v0) :: mapSet rest k v

/-- JavaScript Map.has on an association list. -/
def mapHas {α : Type} (m : List (String × α)) (k : String) : Bool :=
  m.any (fun e => e.1 == k)

/-- JavaScript Map.get on an association list. -/
def mapGet {α : Type} (m : List (String × α)) (k : String) : Option α :=
  match m with
  | [] => none
  | (k0, v0) :: rest => if k0 = k then some v0 else mapGet rest k

/-- JavaScript number restricted to the values reachable in the overlap
computation: an exact rational, NaN, or a signed infinity.  The fixed-point
display formatting applied by the source (toFixed) is presentation only and
is not modelled. -/
inductive JSNum where
  | num (q : ℚ)
  | nan
  | inf
  | ninf
deriving DecidableEq, Repr

/-- JavaScript division on the values above.  Cases that cannot arise in
the embedded computation collapse to NaN, the conservative choice. -/
def jsDiv : JSNum → JSNum → JSNum
  | JSNum.num a, JSNum.num b =>
    if b = 0 then
      if a = 0 then JSNum.nan else if 0 < a then JSNum.inf else JSNum.ninf
    else JSNum.num (a / b)
  | _, _ => JSNum.nan

/-- JavaScript multiplication on the values above; unreachable cases
collapse to NaN. -/
def jsMul : JSNum → JSNum → JSNum
  | JSNum.num a, JSNum.num b => JSNum.num (a * b)
  | _, _ => JSNum.nan

/-- Result record of detectDuplicates.  The unique counts are JavaScript
number subtractions and may in principle go negative, hence Int. -/
structure DupResult where
  duplicates : Nat
  overlapPercent : JSNum
  uniqueUsed : Int
  uniqueTractorHouse : Int
  totalUnique : Int
deriving DecidableEq, Repr

/-- Lookup construction of detectDuplicates: for each used item, insert its
match key unless the key is falsy or the all-empty key of three bars. -/
def buildUsedKeys (usedItems : List Item) : List (String × Item) :=
  usedItems.foldl
    (fun m item =>
      let key := createMatchKey item
      if key ≠ "" ∧ key ≠ "|||" then mapSet m key item else m) []

/-- Duplicate counting loop of detectDuplicates over the Tractor House
items. -/
def countDuplicates (usedKeys : List (String × Item)) (tractorHouseItems : List Item) : Nat :=
  tractorHouseItems.foldl
    (fun n item =>
      let key := createMatchKey item
      if key ≠ "" ∧ key ≠ "|||" ∧ mapHas usedKeys key = true then n + 1 else n) 0

/-- Source function detectDuplicates: build the lookup over the used items,
count Tractor House items whose key hits the lookup, and derive the overlap
percentage and unique counts.  The percentage divides by the length of the
used set, guarded on that length being positive. -/
def detectDuplicates (usedItems tractorHouseItems : List Item) : DupResult :=
  let usedKeys := buildUsedKeys usedItems
  let duplicates := countDuplicates usedKeys tractorHouseItems
  let overlapPercent :=
    if 0 < usedItems.length then
      jsMul (jsDiv (JSNum.num duplicates) (JSNum.num usedItems.length)) (JSNum.num 100)
    else JSNum.num 0
  { duplicates := duplicates
    overlapPercent := overlapPercent
    uniqueUsed := (usedItems.length : Int) - duplicates
    uniqueTractorHouse := (tractorHouseItems.length : Int) - duplicates
    totalUnique := ((usedItems.length : Int) - duplicates) +
      ((tractorHouseItems.length : Int) - duplicates) }

/-- Definition following the words of the specification, for comparison
with the source: overlap percentage computed as duplicates divided by the
size of the second set, zero when the second set is empty. -/
def overlapPercentClaimed (duplicates setBLen : Nat) : JSNum :=
  if 0 < setBLen then
    jsMul (jsDiv (JSNum.num duplicates) (JSNum.num setBLen)) (JSNum.num 100)
  else JSNum.num 0

/-- Concrete matcher record with an empty model component in its key. -/
def itemPartial : Item :=
  { year := "2024", make := "JOHN DEERE", model := "", location := "GRETNA" }

/-- Concrete matcher record whose key is entirely empty. -/
def itemAllEmpty : Item :=
  { year := "", make := "", model := "", location := "" }

/-- Concrete fully-populated matcher record. -/
def itemU1 : Item :=
  { year := "2024", make := "JOHN DEERE", model := "5095M", location := "GRETNA" }

/-- Second concrete fully-populated matcher record with a distinct key. -/
def itemU2 : Item :=
  { year := "2023", make := "JOHN DEERE", model := "6R", location := "YORK" }

/-! Batch scheduler (processBatch) of the scrape-all-equipment script. -/

/-- Loop of processBatch, presented on the remaining suffix of the item
list and peeled by fuel: while items remain, map the per-item function over
the next window and append the settled window results.  The source loop
indexes by multiples of the batch size; a zero batch size never advances
there, which the fuel bounds here. -/
def processBatchGo {α β : Type} : Nat → List α → Nat → (α → β) → List β
  | 0, _, _, _ => []
  | _ + 1, [], _, _ => []
  | fuel + 1, x :: rest, batchSize, f =>
    ((x :: rest).take batchSize).map f ++
      processBatchGo fuel ((x :: rest).drop batchSize) batchSize f

/-- Source function processBatch: process the item list in windows of the
given batch size; within a window every item is processed and the window
results are appended in input order.  The inter-window delay changes no
computed value and is not modelled. -/
def processBatch {α β : Type} (items : List α) (batchSize : Nat) (f : α → β) : List β :=
  processBatchGo items.length items batchSize f

/-! Product-name parser of the scrape-all-equipment script.  The
JavaScript pattern is four digits, whitespace, a lazy one-or-more of dot,
whitespace, a hyphen, whitespace, and one or more digits; the match is a
backtracking search from the leftmost position. -/

/-- All ways of splitting off a nonempty prefix of characters satisfying
the class, shortest prefix first: the candidate order of a lazy one-or-more
quantifier. -/
def plusSplitsLazy (p : Char → Bool) : List Char → List (List Char × List Char)
  | [] => []
  | c :: rest =>
    if p c then ([c], rest) :: (plusSplitsLazy p rest).map (fun pr => (c :: pr.1, pr.2))
    else []

/-- Candidate order of a greedy one-or-more quantifier: longest prefix
first. -/
def plusSplitsGreedy (p : Char → Bool) (l : List Char) : List (List Char × List Char) :=
  (plusSplitsLazy p l).reverse

/-- Character class of the regular-expression dot: any character except a
line terminator. -/
def isDotChar (c : Char) : Bool :=
  !(c == '\n' || c == '\r' || c.val == 0x2028 || c.val == 0x2029)

/-- Result triple of parseProductName. -/
structure PNResult where
  year : String
  model : String
  productId : String
deriving DecidableEq, Repr

/-- Backtracking match of the product-name pattern anchored at the head of
the list, returning the three capture groups on success.  Candidates are
tried in backtracking order: greedy runs longest first, the lazy model
group shortest first. -/
def matchPNAt (l : List Char) : Option PNResult :=
  let d4 := l.take 4
  if d4.length == 4 && d4.all Char.isDigit then
    (plusSplitsGreedy isSpaceJS (l.drop 4)).findSome? (fun s1 =>
      (plusSplitsLazy isDotChar s1.2).findSome? (fun m =>
        (plusSplitsGreedy isSpaceJS m.2).findSome? (fun s2 =>
          match s2.2 with
          | '-' :: r3 =>
            (plusSplitsGreedy isSpaceJS r3).findSome? (fun s3 =>
              let digits := s3.2.takeWhile Char.isDigit
              if 1 ≤ digits.length then
                some { year := String.mk d4, model := String.mk m.1,
                       productId := String.mk digits }
              else none)
          | _ => none)))
  else none

/-- Leftmost search of the product-name pattern: try each start position
from the left, as an unanchored JavaScript match does. -/
def searchPN : List Char → Option PNResult
  | [] => none
  | c :: rest =>
    match matchPNAt (c :: rest) with
    | some r => some r
    | none => searchPN rest

/-- Source function parseProductName: on a falsy name return empty fields;
on a pattern match return the captures; otherwise the whole name becomes
the model with empty year and id. -/
def parseProductName (nameText : String) : PNResult :=
  if nameText = "" then { year := "", model := "", productId := "" }
  else
    match searchPN nameText.data with
    | some r => r
    | none => { year := "", model := nameText, productId := "" }

/-- Anchored variant of the product-name match following the words of the
specification: the pattern must span the whole composite name, so the match
starts at the first character and the final digit group reaches the end. -/
def matchPNWhole (l : List Char) : Option PNResult :=
  let d4 := l.take 4
  if d4.length == 4 && d4.all Char.isDigit then
    (plusSplitsGreedy isSpaceJS (l.drop 4)).findSome? (fun s1 =>
      (plusSplitsLazy isDotChar s1.2).findSome? (fun m =>
        (plusSplitsGreedy isSpaceJS m.2).findSome? (fun s2 =>
          match s2.2 with
          | '-' :: r3 =>
            (plusSplitsGreedy isSpaceJS r3).findSome? (fun s3 =>
              if s3.2 ≠ [] ∧ s3.2.all Char.isDigit = true then
                some { year := String.mk d4, model := String.mk m.1,
                       productId := String.mk s3.2 }
              else none)
          | _ => none)))
  else none

/-- Name parser following the anchored reading of the specification: a
single anchored match against the whole composite name, never against an
internal substring. -/
def anchoredParseProductName (nameText : String) : PNResult :=
  if nameText = "" then { year := "", model := "", productId := "" }
  else
    match matchPNWhole nameText.data with
    | some r => r
    | none => { year := "", model := nameText, productId := "" }

/-! Price cleaning and category derivation of the scrape-all-equipment
script. -/

/-- Case-insensitive comparison of a literal pattern against the head of a
list. -/
def startsWithCI (pat l : List Char) : Bool :=
  startsWithList (jsToLower pat) (jsToLower l)

/-- Scan of the global case-insensitive removal, peeled by fuel; every step
consumes at least one character, so fuel equal to the list length always
suffices. -/
def removeAllCIGo (pat : List Char) : Nat → List Char → List Char
  | 0, l => l
  | _ + 1, [] => []
  | fuel + 1, c :: rest =>
    if pat ≠ [] ∧ startsWithCI pat (c :: rest) = true then
      removeAllCIGo pat fuel ((c :: rest).drop pat.length)
    else c :: removeAllCIGo pat fuel rest

/-- Global case-insensitive removal of a fixed nonempty literal pattern,
scanning left to right and resuming after each removal, as the JavaScript
global case-insensitive replace by the empty string does. -/
def removeAllCI (pat : List Char) (l : List Char) : List Char :=
  removeAllCIGo pat l.length l

/-- Source function cleanPrice: strip the two promotional prefixes, then
collapse whitespace and trim. -/
def cleanPrice (priceText : String) : String :=
  if priceText = "" then ""
  else
    String.mk (jsTrimList (collapseWS
      (removeAllCI ("List Price:".data) (removeAllCI ("Starting at".data) priceText.data))))

/-- Leftmost match of the category pattern: the literal en-us path segment
followed by one or more non-slash characters and a closing slash; returns
the captured inner segment. -/
def categoryMatch : List Char → Option (List Char)
  | [] => none
  | c :: rest =>
    if startsWithList ("/en-us/".data) (c :: rest) then
      let after := (c :: rest).drop 7
      let run := after.takeWhile (fun ch => !(ch == '/'))
      if 1 ≤ run.length ∧ (after.drop run.length).head? = some '/' then some run
      else categoryMatch rest
    else categoryMatch rest

/-- Category derivation from the product URL: the captured path segment
with hyphens replaced by spaces, or empty when the pattern does not
occur. -/
def categoryOf (url : String) : String :=
  match categoryMatch url.data with
  | some run => String.mk (run.map (fun ch => if ch == '-' then ' ' else ch))
  | none => ""

/-! Record extraction, detail fetcher, and the scrape-all crawl. -/

/-- Raw per-tile field values handed to the core by the listing-page
parsing adapter. -/
structure RawTile where
  brand : String
  nameFull : String
  url : String
  priceRaw : String
  badges : List String
  imageUrl : String
deriving DecidableEq, Repr

/-- Inventory record built from one listing tile by the scrape-all
script. -/
structure Product where
  productName : String
  brand : String
  model : String
  year : String
  productId : String
  price : String
  status : String
  category : String
  productUrl : String
  imageUrl : String
  location : String
  hours : String
deriving DecidableEq, Repr

/-- Tile-to-record extraction of the scrape-all listing loop: clean the
price, parse the composite name, join the badge texts with a comma, derive
the category from the URL, and start with empty location and hours. -/
def extractProduct (t : RawTile) : Product :=
  let price := cleanPrice t.priceRaw
  let parsed := parseProductName t.nameFull
  let status := String.intercalate ", " t.badges
  let category := categoryOf t.url
  { productName := t.nameFull
    brand := t.brand
    model := parsed.model
    year := parsed.year
    productId := parsed.productId
    price := price
    status := status
    category := category
    productUrl := t.url
    imageUrl := t.imageUrl
    location := ""
    hours := "" }

/-- Outcome of one detail-page fetch: the label-value texts of the product
information rows on success, or a transport failure (timeout, network
error, non-success status). -/
inductive FetchOutcome where
  | ok (rows : List (String × String))
  | err (msg : String)
deriving DecidableEq, Repr

/-- Enrichment fields returned by the detail fetcher. -/
structure DetailsResult where
  location : String
  hours : String
deriving DecidableEq, Repr

/-- Source function scrapeProductDetails: when the request fails the catch
block yields empty location and hours; on success scan the product
information rows in order, keeping the trimmed value of the last row whose
trimmed lowercased label mentions location, respectively hour or hrs. -/
def scrapeProductDetails (outcome : FetchOutcome) : DetailsResult :=
  match outcome with
  | FetchOutcome.err _ => { location := "", hours := "" }
  | FetchOutcome.ok rows =>
    rows.foldl
      (fun acc lv =>
        let label := String.mk (jsToLower (jsTrimList lv.1.data))
        let value := String.mk (jsTrimList lv.2.data)
        if containsSub ("location".data) label.data then { acc with location := value }
        else if containsSub ("hour".data) label.data || containsSub ("hrs".data) label.data then
          { acc with hours := value }
        else acc)
      { location := "", hours := "" }

/-- Per-item callback of the scrape-all batch loop: fetch the details of
the product and write location and hours into the record.  The fetch
outcome is supplied by an oracle indexed by the product. -/
def enrichProduct (details : Product → FetchOutcome) (p : Product) : Product :=
  let d := scrapeProductDetails (details p)
  { p with location := d.location, hours := d.hours }

/-- Outcome of one listing-page fetch of the scrape-all crawl. -/
inductive PageFetch where
  | ok (tiles : List RawTile)
  | err (msg : String)
deriving DecidableEq, Repr

/-- Result of the scrape-all crawl together with the number of listing-page
requests issued; the request count instruments the termination claims. -/
structure CrawlResult where
  products : List Product
  pagesFetched : Nat
deriving DecidableEq, Repr

/-- Nominal page size of the scrape-all crawl. -/
def productsPerPage : Nat := 12

/-- Main loop of scrapeEquipment: while pages remain under the ceiling,
fetch page pageNum; a request failure is caught and the crawl returns
everything gathered so far; an empty page ends the results; otherwise the
page tiles are extracted and enriched through the batch scheduler and
appended, and the crawl continues only when the page was full. -/
def crawlEquipGo (fetchPage : Nat → PageFetch) (details : Product → FetchOutcome) :
    Nat → Nat → List Product → CrawlResult
  | 0, pageNum, acc => { products := acc, pagesFetched := pageNum }
  | fuel + 1, pageNum, acc =>
    match fetchPage pageNum with
    | PageFetch.err _ => { products := acc, pagesFetched := pageNum + 1 }
    | PageFetch.ok tiles =>
      if tiles.length = 0 then { products := acc, pagesFetched := pageNum + 1 }
      else
        let pageProducts := tiles.map extractProduct
        let enriched := processBatch pageProducts 10 (enrichProduct details)
        let acc2 := acc ++ enriched
        if productsPerPage ≤ tiles.length then
          crawlEquipGo fetchPage details fuel (pageNum + 1) acc2
        else { products := acc2, pagesFetched := pageNum + 1 }

/-- Source function scrapeEquipment at the oracle boundary of the page and
detail fetches: pages are numbered from zero and at most maxPages listing
pages are visited.  The function is total: no failure of an oracle
propagates to the caller. -/
def scrapeEquipment (fetchPage : Nat → PageFetch) (details : Product → FetchOutcome)
    (maxPages : Nat) : CrawlResult :=
  crawlEquipGo fetchPage details maxPages 0 []

/-- Records contributed by one listing page of the scrape-all crawl: the
extracted tiles enriched through the batch scheduler; a failed page
contributes nothing. -/
def pageRecordsEquip (fetchPage : Nat → PageFetch) (details : Product → FetchOutcome)
    (j : Nat) : List Product :=
  match fetchPage j with
  | PageFetch.ok tiles => processBatch (tiles.map extractProduct) 10 (enrichProduct details)
  | PageFetch.err _ => []

/-- Concatenation of the records of m consecutive scrape-all pages starting
at the given page number. -/
def pagesConcatEquip (fetchPage : Nat → PageFetch) (details : Product → FetchOutcome) :
    Nat → Nat → List Product
  | _, 0 => []
  | start, m + 1 =>
    pageRecordsEquip fetchPage details start ++
      pagesConcatEquip fetchPage details (start + 1) m

/-! Tractor House crawl. -/

/-- Fields of one listing as produced by the in-page extraction of the
Tractor House scraper. -/
structure THItem where
  title : String
  year : String
  make : String
  model : String
  price : String
  hours : String
  serialNumber : String
  stockNumber : String
  location : String
  condition : String
  category : String
  description : String
  detailUrl : String
  imageUrl : String
  listingId : String
deriving DecidableEq, Repr

/-- Base URL of the Tractor House site. -/
def thBaseUrl : String := "https://www.akrsusedequipment.com"

/-- Source function cleanText: collapse whitespace, then trim. -/
def cleanText (s : String) : String :=
  if s = "" then "" else String.mk (jsTrimList (collapseWS s.data))

/-- Leftmost match of the price pattern: a dollar sign followed by one or
more digits or commas; returns the matched text. -/
def priceMatch : List Char → Option (List Char)
  | [] => none
  | c :: rest =>
    if c == '$' then
      let run := rest.takeWhile (fun ch => ch.isDigit || ch == ',')
      if 1 ≤ run.length then some ('$' :: run) else priceMatch rest
    else priceMatch rest

/-- Source function extractPrice: the matched dollar amount, or the cleaned
raw text when the pattern does not occur. -/
def extractPrice (priceText : String) : String :=
  if priceText = "" then ""
  else
    match priceMatch priceText.data with
    | some m => String.mk m
    | none => cleanText priceText

/-- JavaScript substring from index zero, used to cap the description
length. -/
def jsSubstringTo (s : String) (n : Nat) : String :=
  String.mk (s.data.take n)

/-- Detail-URL fixup of the Tractor House post-processing. -/
def fixDetailUrl (u : String) : String :=
  if u ≠ "" ∧ u.startsWith "http" = false then
    if u.startsWith "/" then thBaseUrl ++ u else thBaseUrl ++ "/" ++ u
  else u

/-- Image-URL fixup of the Tractor House post-processing. -/
def fixImageUrl (u : String) : String :=
  if u ≠ "" ∧ u.startsWith "http" = false then
    if u.startsWith "//" then "https:" ++ u
    else if u.startsWith "/" then thBaseUrl ++ u else thBaseUrl ++ "/" ++ u
  else u

/-- Per-item cleanup of the Tractor House processing loop: clean the price,
cap the cleaned description, and absolutize the URLs; the identifying
fields title, year, make, and model are untouched. -/
def cleanTHItem (it : THItem) : THItem :=
  { it with
    price := extractPrice it.price
    description := jsSubstringTo (cleanText it.description) 500
    detailUrl := fixDetailUrl it.detailUrl
    imageUrl := fixImageUrl it.imageUrl }

/-- Keep test of the Tractor House processing loop: the item is appended
only when its title, model, or make is truthy, that is non-empty. -/
def keepTHItem (it : THItem) : Bool :=
  !(it.title == "") || !(it.model == "") || !(it.make == "")

/-- Page processing of the Tractor House crawl: clean each scraped item in
order and append it to the accumulated listings when it passes the keep
test. -/
def processScrapedPage (items : List THItem) (acc : List THItem) : List THItem :=
  items.foldl
    (fun l it =>
      let cleaned := cleanTHItem it
      if keepTHItem cleaned then l ++ [cleaned] else l) acc

/-- One listing page of the Tractor House site as seen after the in-page
extraction: the scraped items plus whether the pager advertises a next
page. -/
structure THPage where
  items : List THItem
  hasNext : Bool
deriving DecidableEq, Repr

/-- Crawl result of the Tractor House scraper, with the number of listing
pages navigated to. -/
structure THCrawlResult where
  listings : List THItem
  pagesFetched : Nat
deriving DecidableEq, Repr

/-- Safety cap on the number of Tractor House pages. -/
def thMaxPages : Nat := 50

/-- Short-page threshold of the Tractor House pagination check. -/
def thPageThreshold : Nat := 20

/-- Main loop of scrapeInventoryListings: fetch page pageNum; a page
without listings ends the crawl; otherwise process the page, and stop when
the pager offers no next page or the page held fewer listings than the
short-page threshold. -/
def crawlTHGo (fetchPage : Nat → THPage) : Nat → Nat → Nat → List THItem → THCrawlResult
  | 0, _, fetched, acc => { listings := acc, pagesFetched := fetched }
  | fuel + 1, pageNum, fetched, acc =>
    let page := fetchPage pageNum
    let count := page.items.length
    if count = 0 then { listings := acc, pagesFetched := fetched + 1 }
    else
      let acc2 := processScrapedPage page.items acc
      if page.hasNext = false ∨ count < thPageThreshold then
        { listings := acc2, pagesFetched := fetched + 1 }
      else crawlTHGo fetchPage fuel (pageNum + 1) (fetched + 1) acc2

/-- Source function scrapeInventoryListings at the oracle boundary of the
in-page extraction: pages are numbered from one and at most the safety cap
of pages is visited. -/
def scrapeInventoryListings (fetchPage : Nat → THPage) : THCrawlResult :=
  crawlTHGo fetchPage thMaxPages 1 0 []

/-- Listings accumulated by the Tractor House crawl over m consecutive
processed pages starting at the given page number. -/
def thPagesAcc (fetchPage : Nat → THPage) : Nat → Nat → List THItem → List THItem
  | _, 0, acc => acc
  | start, m + 1, acc =>
    thPagesAcc fetchPage (start + 1) m (processScrapedPage (fetchPage start).items acc)

end Akrs

namespace Akrs.LocationMap

/-- Source function getColor of the location heat map (thresholds 50 and
20): red for the high tier, orange for the medium tier, green for the low
tier. -/
def getColor (count : Nat) : String :=
  if 50 < count then "#d32f2f"
  else if 20 < count then "#ff9800"
  else "#4caf50"

end Akrs.LocationMap

namespace Akrs.ReconMap

/-- Source function getColor of the reconciliation heat map (thresholds 150
and 100): red for the high tier, orange for the medium tier, green for the
low tier. -/
def getColor (count : Nat) : String :=
  if 150 < count then "#d32f2f"
  else if 100 < count then "#ff9800"
  else "#4caf50"

end Akrs.ReconMap

namespace Akrs

/-- Per-location counters of the reconciliation aggregation. -/
structure LocCounts where
  total : Nat
  new : Nat
  used : Nat
  tractorHouse : Nat
deriving DecidableEq, Repr

/-- One spreadsheet row as seen by the aggregation block of
analyzeExcelData: which file kind it came from, the sheet name, and the
resolved location when the row has one.  Rows whose location resolves to no
known store are represented with no location, matching their exclusion in
the source. -/
structure RowInfo where
  isTractorHouseFile : Bool
  sheetName : String
  location : Option String
deriving DecidableEq, Repr

/-- Row-processing block of analyzeExcelData: a row without a resolved
location is not counted; otherwise the location total is incremented and at
most one per-source counter is incremented, chosen by the file kind and the
lowercased sheet name. -/
def statsUpdate (stats : List (String × LocCounts)) (row : RowInfo) :
    List (String × LocCounts) :=
  match row.location with
  | none => stats
  | some loc =>
    let cur0 := (mapGet stats loc).getD { total := 0, new := 0, used := 0, tractorHouse := 0 }
    let cur1 := { cur0 with total := cur0.total + 1 }
    let sheet := jsToLower row.sheetName.data
    let cur2 :=
      if row.isTractorHouseFile &&
          (containsSub ("tractor".data) sheet || containsSub ("inventory".data) sheet) then
        { cur1 with tractorHouse := cur1.tractorHouse + 1 }
      else if containsSub ("new".data) sheet then { cur1 with new := cur1.new + 1 }
      else if containsSub ("used".data) sheet then { cur1 with used := cur1.used + 1 }
      else cur1
    mapSet stats loc cur2

/-- Aggregation of analyzeExcelData over the located rows of all processed
files, starting from the empty statistics table. -/
def analyzeRows (rows : List RowInfo) : List (String × LocCounts) :=
  rows.foldl statsUpdate []

/-- Per-location invariant of the aggregation: the per-source counters sum
to at most the total. -/
def statOK (c : LocCounts) : Prop :=
  c.new + c.used + c.tractorHouse ≤ c.total

/-- Concrete enriched product record used by concrete instantiations. -/
def prodSample : Product :=
  { productName := "2024 5095M - 431539", brand := "John Deere", model := "5095M",
    year := "2024", productId := "431539", price := "$96,977.25", status := "",
    category := "", productUrl := "/en-us/x/", imageUrl := "", location := "", hours := "" }

/-- Concrete Tractor House item with every field empty. -/
def thItemEmpty : THItem :=
  { title := "", year := "", make := "", model := "", price := "", hours := "",
    serialNumber := "", stockNumber := "", location := "", condition := "",
    category := "", description := "", detailUrl := "", imageUrl := "", listingId := "" }

/-- Concrete Tractor House item carrying meaningful identifying fields. -/
def thItemGood : THItem :=
  { title := "2025 JOHN DEERE 9RX 640", year := "2025", make := "JOHN DEERE",
    model := "9RX 640", price := "", hours := "", serialNumber := "",
    stockNumber := "", location := "MCCOOK", condition := "", category := "",
    description := "", detailUrl := "", imageUrl := "", listingId := "" }

/-- Concrete located row from a sheet matching no source category. -/
def rowPlain : RowInfo :=
  { isTractorHouseFile := false, sheetName := "Sheet1", location := some "YORK" }

/-- Concrete located row from a new-equipment sheet. -/
def rowNew : RowInfo :=
  { isTractorHouseFile := false, sheetName := "New Equipment", location := some "YORK" }

/-- Concrete located row from a Tractor House file and sheet. -/
def rowTH : RowInfo :=
  { isTractorHouseFile := true, sheetName := "Tractor House", location := some "YORK" }

end Akrs


namespace Akrs

/-! Helper lemmas about the batch scheduler. -/

/-- Fuel-peeled batch loop computes the plain map whenever the batch size
is positive and the fuel covers the item count. -/
theorem processBatchGo_eq_map {α β : Type} (f : α → β) (batchSize : Nat)
    (hb : 1 ≤ batchSize) :
    ∀ (fuel : Nat) (items : List α), items.length ≤ fuel →
      processBatchGo fuel items batchSize f = items.map f := by
  intro fuel
  induction fuel with
  | zero =>
    intro items h
    have : items = [] := List.length_eq_zero.mp (Nat.le_zero.mp h)
    subst this
    rfl
  | succ n ih =>
    intro items h
    cases items with
    | nil => rfl
    | cons x rest =>
      have hlen : ((x :: rest).drop batchSize).length ≤ n := by
        simp only [List.length_drop, List.length_cons]
        simp only [List.length_cons] at h
        omega
      calc processBatchGo (n + 1) (x :: rest) batchSize f
          = ((x :: rest).take batchSize).map f ++
              processBatchGo n ((x :: rest).drop batchSize) batchSize f := rfl
        _ = ((x :: rest).take batchSize).map f ++ ((x :: rest).drop batchSize).map f := by
              rw [ih _ hlen]
        _ = (x :: rest).map f := by rw [← List.map_append, List.take_append_drop]

/-- Batch scheduler computes the plain map for every positive batch
size. -/
theorem processBatch_eq_map {α β : Type} (items : List α) (batchSize : Nat) (f : α → β)
    (hb : 1 ≤ batchSize) :
    processBatch items batchSize f = items.map f :=
  processBatchGo_eq_map f batchSize hb items.length items (Nat.le_refl _)

/-- Claim C2: for every input item list, every batch size of at least one,
and every per-item function, processBatch returns a result sequence of the
same length as the input whose element at each index i is the per-item
function applied to the input element at index i; the model is the
synchronous linearization in which completion order within a window cannot
influence the returned sequence. -/
theorem processBatch_preserves_order {α β : Type} (items : List α) (batchSize : Nat)
    (f : α → β) (hb : 1 ≤ batchSize) :
    (processBatch items batchSize f).length = items.length ∧
      ∀ i : Nat, (processBatch items batchSize f)[i]? = (items[i]?).map f := by
  have h := processBatch_eq_map items batchSize f hb
  constructor
  · rw [h, List.length_map]
  · intro i
    rw [h]
    exact List.getElem?_map ..

/-- Claim C2 witness: the order theorem applied to a concrete five-item
list split into windows of two. -/
theorem processBatch_preserves_order_witness :
    (processBatch [1, 2, 3, 4, 5] 2 (fun n => n * 10)).length =
      ([1, 2, 3, 4, 5] : List Nat).length :=
  (processBatch_preserves_order [1, 2, 3, 4, 5] 2 (fun n => n * 10) (by decide)).1

/-- Claim C6: a detail-fetch failure for one item yields the empty-defaults
sentinel for that item, is handled inside the (total) per-item function
rather than thrown, leaves every other item of the window computed from its
own fetch outcome, and does not reduce the count of results returned for
the window. -/
theorem detail_failure_fails_soft (items : List Product) (details : Product → FetchOutcome)
    (p : Product) (msg : String) (hp : details p = FetchOutcome.err msg) :
    scrapeProductDetails (details p) = { location := "", hours := "" } ∧
      enrichProduct details p = { p with location := "", hours := "" } ∧
      (processBatch items 10 (enrichProduct details)).length = items.length ∧
      ∀ i : Nat, (processBatch items 10 (enrichProduct details))[i]? =
        (items[i]?).map (enrichProduct details) := by
  have h := processBatch_eq_map items 10 (enrichProduct details) (by omega)
  refine ⟨?_, ?_, ?_, ?_⟩
  · rw [hp]
    rfl
  · show { p with
        location := (scrapeProductDetails (details p)).location,
        hours := (scrapeProductDetails (details p)).hours } = _
    rw [hp]
    rfl
  · rw [h, List.length_map]
  · intro i
    rw [h]
    exact List.getElem?_map ..

/-- Claim C6 witness: the fails-soft theorem applied to a one-item window
whose detail fetch times out. -/
theorem detail_failure_fails_soft_witness :
    scrapeProductDetails ((fun _ => FetchOutcome.err "timeout") prodSample) =
      { location := "", hours := "" } ∧
      (processBatch [prodSample] 10
        (enrichProduct (fun _ => FetchOutcome.err "timeout"))).length =
        ([prodSample] : List Product).length := by
  have h := detail_failure_fails_soft [prodSample] (fun _ => FetchOutcome.err "timeout")
    prodSample "timeout" rfl
  exact ⟨h.1, h.2.2.1⟩

/-- Claim C7: a location total of exactly 51 is colored as the HIGH tier by
the 50 and 20 threshold variant and as the LOW tier by the 150 and 100
reconciliation variant; the two variants are independent functions with the
literal tier boundaries HIGH above 50, MEDIUM from above 20 up to 50, LOW
otherwise, respectively HIGH above 150, MEDIUM from above 100 up to 150,
LOW otherwise. -/
theorem tier_thresholds :
    LocationMap.getColor 51 = "#d32f2f" ∧
      ReconMap.getColor 51 = "#4caf50" ∧
      (∀ count : Nat, 50 < count → LocationMap.getColor count = "#d32f2f") ∧
      (∀ count : Nat, 20 < count → count ≤ 50 → LocationMap.getColor count = "#ff9800") ∧
      (∀ count : Nat, count ≤ 20 → LocationMap.getColor count = "#4caf50") ∧
      (∀ count : Nat, 150 < count → ReconMap.getColor count = "#d32f2f") ∧
      (∀ count : Nat, 100 < count → count ≤ 150 → ReconMap.getColor count = "#ff9800") ∧
      (∀ count : Nat, count ≤ 100 → ReconMap.getColor count = "#4caf50") := by
  refine ⟨by decide, by decide, ?_, ?_, ?_, ?_, ?_, ?_⟩
  · intro c h
    unfold LocationMap.getColor
    rw [if_pos h]
  · intro c h1 h2
    unfold LocationMap.getColor
    rw [if_neg (by omega), if_pos h1]
  · intro c h
    unfold LocationMap.getColor
    rw [if_neg (by omega), if_neg (by omega)]
  · intro c h
    unfold ReconMap.getColor
    rw [if_pos h]
  · intro c h1 h2
    unfold ReconMap.getColor
    rw [if_neg (by omega), if_pos h1]
  · intro c h
    unfold ReconMap.getColor
    rw [if_neg (by omega), if_neg (by omega)]

/-- Claim C7 witness: the threshold theorem applied at counts 51 and 30. -/
theorem tier_thresholds_witness :
    LocationMap.getColor 51 = "#d32f2f" ∧ LocationMap.getColor 30 = "#ff9800" ∧
      ReconMap.getColor 51 = "#4caf50" :=
  ⟨tier_thresholds.2.2.1 51 (by decide),
    tier_thresholds.2.2.2.1 30 (by decide) (by decide),
    tier_thresholds.2.2.2.2.2.2.2 51 (by decide)⟩

/-! Helper lemmas about the cross-source matcher. -/

/-- Match keys always contain the three separator bars and are therefore
never the empty string. -/
theorem createMatchKey_ne_empty (i : Item) : createMatchKey i ≠ "" := by
  intro h
  have hlen := congrArg String.length h
  simp only [createMatchKey, String.length_append] at hlen
  have h1 : ("|" : String).length = 1 := rfl
  have h0 : ("" : String).length = 0 := rfl
  rw [h1, h0] at hlen
  omega

/-- Membership after a map insertion: the inserted key, or anything already
present. -/
theorem mapHas_mapSet {α : Type} (m : List (String × α)) (k k2 : String) (v : α) :
    mapHas (mapSet m k v) k2 = ((k == k2) || mapHas m k2) := by
  induction m with
  | nil => simp [mapSet, mapHas]
  | cons hd tl ih =>
    by_cases h : hd.1 = k
    · simp only [mapSet, if_pos h, mapHas, List.any_cons] at *
      rw [h]
      cases hk : (k == k2) <;> simp [hk]
    · simp only [mapSet, if_neg h, mapHas, List.any_cons] at *
      rw [ih]
      cases hk : (k == k2) <;> cases hh : (hd.1 == k2) <;> simp [hk, hh]

/-- Characterization of the lookup built by buildUsedKeys from an arbitrary
starting map: a key is present exactly when some used item produces it and
it passes the insertion guard, or it was present already. -/
theorem mapHas_buildUsedKeys_go (used : List Item) :
    ∀ (m : List (String × Item)) (k : String),
      mapHas (used.foldl
        (fun m item =>
          let key := createMatchKey item
          if key ≠ "" ∧ key ≠ "|||" then mapSet m key item else m) m) k =
      (used.any (fun a => (createMatchKey a == k) &&
        decide (createMatchKey a ≠ "" ∧ createMatchKey a ≠ "|||")) || mapHas m k) := by
  induction used with
  | nil => intro m k; simp
  | cons a as ih =>
    intro m k
    rw [List.foldl_cons, List.any_cons, ih]
    by_cases hc : createMatchKey a ≠ "" ∧ createMatchKey a ≠ "|||"
    · simp only [if_pos hc, mapHas_mapSet, decide_eq_true hc]
      cases hk : (createMatchKey a == k) <;>
        cases hrest : as.any (fun a => (createMatchKey a == k) &&
          decide (createMatchKey a ≠ "" ∧ createMatchKey a ≠ "|||")) <;>
        cases hm : mapHas m k <;> simp [hk, hrest, hm]
    · simp only [if_neg hc]
      have : decide (createMatchKey a ≠ "" ∧ createMatchKey a ≠ "|||") = false := by
        simpa using hc
      simp [this]

/-- Lookup membership for buildUsedKeys itself. -/
theorem mapHas_buildUsedKeys (used : List Item) (k : String) :
    mapHas (buildUsedKeys used) k =
      used.any (fun a => (createMatchKey a == k) &&
        decide (createMatchKey a ≠ "" ∧ createMatchKey a ≠ "|||")) := by
  have h := mapHas_buildUsedKeys_go used [] k
  simpa [mapHas] using h

/-- Duplicate counter as a filter length, generalized over the running
count. -/
theorem countDuplicates_go (uk : List (String × Item)) (th : List Item) :
    ∀ n : Nat,
      th.foldl
        (fun n item =>
          let key := createMatchKey item
          if key ≠ "" ∧ key ≠ "|||" ∧ mapHas uk key = true then n + 1 else n) n =
      n + (th.filter (fun b =>
        decide (createMatchKey b ≠ "" ∧ createMatchKey b ≠ "|||" ∧
          mapHas uk (createMatchKey b) = true))).length := by
  induction th with
  | nil => intro n; simp
  | cons b bs ih =>
    intro n
    rw [List.foldl_cons, List.filter_cons]
    by_cases hc : createMatchKey b ≠ "" ∧ createMatchKey b ≠ "|||" ∧
        mapHas uk (createMatchKey b) = true
    · simp only [if_pos hc, decide_eq_true hc, ih]
      simp
      omega
    · have : decide (createMatchKey b ≠ "" ∧ createMatchKey b ≠ "|||" ∧
          mapHas uk (createMatchKey b) = true) = false := by simpa using hc
      simp only [if_neg hc, this, ih]
      simp

/-- Duplicate counter of detectDuplicates as a filter length. -/
theorem countDuplicates_eq_filter (uk : List (String × Item)) (th : List Item) :
    countDuplicates uk th =
      (th.filter (fun b =>
        decide (createMatchKey b ≠ "" ∧ createMatchKey b ≠ "|||" ∧
          mapHas uk (createMatchKey b) = true))).length := by
  have h := countDuplicates_go uk th 0
  simpa [countDuplicates] using h

/-- Claim C1 (amended): only a record whose match key is entirely empty
(the bare three-bar key) is skipped when building the first-set lookup and
never counts as a duplicate; a record whose key has some but not all empty
components is entered into the lookup and does count against an
identical-looking counterpart.  The duplicate count is exactly the number
of second-set records whose key is not the all-empty key and hits the
lookup. -/
theorem allEmpty_key_skipped :
    (∀ setA setB : List Item,
      (detectDuplicates setA setB).duplicates =
        (setB.filter (fun b => decide (createMatchKey b ≠ "|||") &&
          mapHas (buildUsedKeys setA) (createMatchKey b))).length) ∧
    (∀ setA : List Item, mapHas (buildUsedKeys setA) "|||" = false) ∧
    (detectDuplicates [itemAllEmpty] [itemAllEmpty]).duplicates = 0 ∧
    (detectDuplicates [itemPartial] [itemPartial]).duplicates = 1 := by
  refine ⟨?_, ?_, by decide, by decide⟩
  · intro setA setB
    show countDuplicates (buildUsedKeys setA) setB = _
    rw [countDuplicates_eq_filter]
    refine congrArg List.length (List.filter_congr ?_)
    intro b _
    have hne := createMatchKey_ne_empty b
    by_cases h1 : createMatchKey b = "|||"
    · simp [h1]
    · cases h2 : mapHas (buildUsedKeys setA) (createMatchKey b) <;> simp [hne, h1, h2]
  · intro setA
    rw [mapHas_buildUsedKeys]
    rw [List.any_eq_false]
    intro a _
    cases h : (createMatchKey a == "|||") with
    | false => simp [h]
    | true =>
      have heq : createMatchKey a = "|||" := by simpa using h
      simp [heq]

/-- Claim C1 counterexample: the record with year 2024, make JOHN DEERE,
empty model, and location GRETNA has a key with an empty component, yet it
is entered into the lookup and counts as a duplicate against its identical
counterpart, contradicting the claim that it is skipped and never
matches. -/
theorem partial_empty_key_matches :
    createMatchKey itemPartial = "2024|JOHN DEERE||GRETNA" ∧
    normalize itemPartial.model = "" ∧
    mapHas (buildUsedKeys [itemPartial]) (createMatchKey itemPartial) = true ∧
    (detectDuplicates [itemPartial] [itemPartial]).duplicates = 1 :=
  ⟨by decide, by decide, by decide, by decide⟩

/-- Claim C4 (amended): the overlap percentage divides the duplicate count
by the size of the FIRST set (the used set the lookup is built from),
guarded so the division never happens on an empty first set; the result is
always a plain number, never NaN; and it is 0 whenever the second set is
empty, because the duplicate count is then 0. -/
theorem overlap_divides_by_first_set (used th : List Item) :
    ((detectDuplicates used th).overlapPercent =
      if 0 < used.length then
        JSNum.num (((detectDuplicates used th).duplicates : ℚ) / (used.length : ℚ) * 100)
      else JSNum.num 0) ∧
    (∃ q : ℚ, (detectDuplicates used th).overlapPercent = JSNum.num q) ∧
    (th = [] → (detectDuplicates used th).overlapPercent = JSNum.num 0) := by
  have hdef : (detectDuplicates used th).overlapPercent =
      if 0 < used.length then
        jsMul (jsDiv (JSNum.num (countDuplicates (buildUsedKeys used) th))
          (JSNum.num used.length)) (JSNum.num 100)
      else JSNum.num 0 := rfl
  have hdup : (detectDuplicates used th).duplicates =
      countDuplicates (buildUsedKeys used) th := rfl
  have hmain : (detectDuplicates used th).overlapPercent =
      if 0 < used.length then
        JSNum.num (((detectDuplicates used th).duplicates : ℚ) / (used.length : ℚ) * 100)
      else JSNum.num 0 := by
    rw [hdef, hdup]
    by_cases h : 0 < used.length
    · rw [if_pos h, if_pos h]
      have hz : ((used.length : ℚ)) ≠ 0 := Nat.cast_ne_zero.mpr (by omega)
      simp [jsDiv, jsMul, hz]
    · rw [if_neg h, if_neg h]
  refine ⟨hmain, ?_, ?_⟩
  · rw [hmain]
    by_cases h : 0 < used.length
    · exact ⟨_, by rw [if_pos h]⟩
    · exact ⟨0, by rw [if_neg h]⟩
  · intro hth
    subst hth
    have h0 : (detectDuplicates used []).duplicates = 0 := rfl
    rw [hmain, h0]
    by_cases h : 0 < used.length
    · rw [if_pos h]
      norm_num
    · rw [if_neg h]

/-- Claim C4 witness: with a nonempty used set and an empty second set the
overlap percentage evaluates to 0. -/
theorem overlap_divides_by_first_set_witness :
    (detectDuplicates [itemU1] []).overlapPercent = JSNum.num 0 :=
  (overlap_divides_by_first_set [itemU1] []).2.2 rfl

/-- Claim C4 counterexample: with two used records and one Tractor House
record that duplicates one of them, the source computes 50 percent (one
duplicate over the two-element FIRST set) while the claimed formula over
the second set gives 100 percent. -/
theorem overlap_not_setB_counterexample :
    (detectDuplicates [itemU1, itemU2] [itemU1]).duplicates = 1 ∧
    (detectDuplicates [itemU1, itemU2] [itemU1]).overlapPercent = JSNum.num 50 ∧
    overlapPercentClaimed (detectDuplicates [itemU1, itemU2] [itemU1]).duplicates
      ([itemU1] : List Item).length = JSNum.num 100 ∧
    (detectDuplicates [itemU1, itemU2] [itemU1]).overlapPercent ≠
      overlapPercentClaimed (detectDuplicates [itemU1, itemU2] [itemU1]).duplicates
        ([itemU1] : List Item).length := by
  have hdup : (detectDuplicates [itemU1, itemU2] [itemU1]).duplicates = 1 := by decide
  have h1 : countDuplicates (buildUsedKeys [itemU1, itemU2]) [itemU1] = 1 := by decide
  have h50 : (detectDuplicates [itemU1, itemU2] [itemU1]).overlapPercent = JSNum.num 50 := by
    show (if 0 < ([itemU1, itemU2] : List Item).length then
        jsMul (jsDiv (JSNum.num (countDuplicates (buildUsedKeys [itemU1, itemU2]) [itemU1]))
          (JSNum.num ([itemU1, itemU2] : List Item).length)) (JSNum.num 100)
      else JSNum.num 0) = JSNum.num 50
    rw [h1]
    simp only [List.length_cons, List.length_nil]
    rw [if_pos (by norm_num)]
    simp only [jsDiv, jsMul]
    norm_num
  have h100 : overlapPercentClaimed (detectDuplicates [itemU1, itemU2] [itemU1]).duplicates
      ([itemU1] : List Item).length = JSNum.num 100 := by
    rw [hdup]
    simp only [List.length_cons, List.length_nil, overlapPercentClaimed]
    rw [if_pos (by norm_num)]
    simp only [jsDiv, jsMul]
    norm_num
  refine ⟨hdup, h50, h100, ?_⟩
  rw [h50, h100]
  simp only [ne_eq, JSNum.num.injEq]
  norm_num

/-- Claim C8 (amended): the name parse maps the canonical composite name to
year 2024, model 5095M, and id 431539; for every name string on which the
pattern search fails the parser returns empty year and id with the whole
input as the model; and the pattern match is an UNANCHORED leftmost search,
so it can succeed on an internal substring of the name. -/
theorem parse_product_name_spec :
    parseProductName "2024 5095M - 431539" =
      { year := "2024", model := "5095M", productId := "431539" } ∧
    (∀ s : String, searchPN s.data = none →
      parseProductName s = { year := "", model := s, productId := "" }) ∧
    parseProductName "x 2024 5095M - 431539" =
      { year := "2024", model := "5095M", productId := "431539" } := by
  refine ⟨by decide, ?_, by decide⟩
  intro s hs
  unfold parseProductName
  by_cases h : s = ""
  · subst h
    rfl
  · rw [if_neg h, hs]

/-- Claim C8 witness: the no-match branch applied to a concrete name that
lacks the digit suffix. -/
theorem parse_product_name_spec_witness :
    parseProductName "John Deere Gator" =
      { year := "", model := "John Deere Gator", productId := "" } :=
  parse_product_name_spec.2.1 "John Deere Gator" (by decide)

/-- Claim C8 counterexample: on a name with a leading junk character the
source parser still extracts the year, model and id from the internal
substring, while the anchored whole-name reading of the claim fails to
match and would have returned the entire string as the model; hence the
match is not anchored against the whole composite name. -/
theorem parse_product_name_unanchored :
    parseProductName "x 2024 5095M - 431539" =
      { year := "2024", model := "5095M", productId := "431539" } ∧
    anchoredParseProductName "x 2024 5095M - 431539" =
      { year := "", model := "x 2024 5095M - 431539", productId := "" } ∧
    parseProductName "x 2024 5095M - 431539" ≠
      anchoredParseProductName "x 2024 5095M - 431539" :=
  ⟨by decide, by decide, by decide⟩

/-! Helper lemmas about the two pagination loops. -/

/-- Crawl loop of scrapeEquipment after m consecutive full pages: the loop
reaches page pageNum plus m with the records of those pages appended. -/
theorem crawlEquipGo_full_pages (fetchPage : Nat → PageFetch)
    (details : Product → FetchOutcome) :
    ∀ (m fuel pageNum : Nat) (acc : List Product), m ≤ fuel →
      (∀ j, j < m → ∃ tiles, fetchPage (pageNum + j) = PageFetch.ok tiles ∧
        productsPerPage ≤ tiles.length) →
      crawlEquipGo fetchPage details fuel pageNum acc =
        crawlEquipGo fetchPage details (fuel - m) (pageNum + m)
          (acc ++ pagesConcatEquip fetchPage details pageNum m) := by
  intro m
  induction m with
  | zero =>
    intro fuel pageNum acc _ _
    simp [pagesConcatEquip]
  | succ n ih =>
    intro fuel pageNum acc hm hfull
    obtain ⟨tiles, hok, hlen⟩ := hfull 0 (Nat.succ_pos n)
    rw [Nat.add_zero] at hok
    cases fuel with
    | zero => omega
    | succ f =>
      have h12 : productsPerPage = 12 := rfl
      have h0 : tiles.length ≠ 0 := by omega
      have hstep : crawlEquipGo fetchPage details (f + 1) pageNum acc =
          crawlEquipGo fetchPage details f (pageNum + 1)
            (acc ++ pageRecordsEquip fetchPage details pageNum) := by
        simp only [crawlEquipGo, hok, pageRecordsEquip]
        rw [if_neg h0, if_pos hlen]
      rw [hstep, ih f (pageNum + 1) _ (by omega) ?hshift]
      case hshift =>
        intro j hj
        have h := hfull (j + 1) (by omega)
        have hidx : pageNum + (j + 1) = pageNum + 1 + j := by omega
        rw [hidx] at h
        exact h
      have e1 : f - n = (f + 1) - (n + 1) := by omega
      have e2 : pageNum + 1 + n = pageNum + (n + 1) := by omega
      rw [e1, e2, List.append_assoc]
      rfl

/-- Crawl loop of scrapeInventoryListings after m consecutive full pages
whose pager advertises a next page. -/
theorem crawlTHGo_full_pages (fetchPage : Nat → THPage) :
    ∀ (m fuel pageNum fetched : Nat) (acc : List THItem), m ≤ fuel →
      (∀ j, j < m → thPageThreshold ≤ (fetchPage (pageNum + j)).items.length ∧
        (fetchPage (pageNum + j)).hasNext = true) →
      crawlTHGo fetchPage fuel pageNum fetched acc =
        crawlTHGo fetchPage (fuel - m) (pageNum + m) (fetched + m)
          (thPagesAcc fetchPage pageNum m acc) := by
  intro m
  induction m with
  | zero =>
    intro fuel pageNum fetched acc _ _
    simp [thPagesAcc]
  | succ n ih =>
    intro fuel pageNum fetched acc hm hfull
    obtain ⟨hlen, hnext⟩ := hfull 0 (Nat.succ_pos n)
    rw [Nat.add_zero] at hlen hnext
    cases fuel with
    | zero => omega
    | succ f =>
      have h0 : (fetchPage pageNum).items.length ≠ 0 := by
        have h20 : thPageThreshold = 20 := rfl
        omega
      have hstep : crawlTHGo fetchPage (f + 1) pageNum fetched acc =
          crawlTHGo fetchPage f (pageNum + 1) (fetched + 1)
            (processScrapedPage (fetchPage pageNum).items acc) := by
        simp only [crawlTHGo]
        rw [if_neg h0, if_neg (not_or.mpr ⟨by simp [hnext], by omega⟩)]
      rw [hstep, ih f (pageNum + 1) (fetched + 1) _ (by omega) ?hshift]
      case hshift =>
        intro j hj
        have h := hfull (j + 1) (by omega)
        have hidx : pageNum + (j + 1) = pageNum + 1 + j := by omega
        rw [hidx] at h
        exact h
      have e1 : f - n = (f + 1) - (n + 1) := by omega
      have e2 : pageNum + 1 + n = pageNum + (n + 1) := by omega
      have e3 : fetched + 1 + n = fetched + (n + 1) := by omega
      rw [e1, e2, e3]
      rfl

/-- Claim C5: when a listing-page request fails after k successfully
fetched full pages, scrapeEquipment returns exactly the records accumulated
from those earlier pages (the failing page contributes nothing and exactly
k plus one page requests were issued); the crawl is a total function of its
oracles, so the failure never propagates to the caller. -/
theorem crawl_failure_returns_partial (fetchPage : Nat → PageFetch)
    (details : Product → FetchOutcome) (maxPages k : Nat) (msg : String)
    (hk : k < maxPages)
    (hfull : ∀ j, j < k → ∃ tiles, fetchPage j = PageFetch.ok tiles ∧
      productsPerPage ≤ tiles.length)
    (herr : fetchPage k = PageFetch.err msg) :
    scrapeEquipment fetchPage details maxPages =
      { products := pagesConcatEquip fetchPage details 0 k, pagesFetched := k + 1 } := by
  unfold scrapeEquipment
  rw [crawlEquipGo_full_pages fetchPage details k maxPages 0 [] (by omega)
    (by intro j hj; simpa using hfull j hj)]
  obtain ⟨t, ht⟩ : ∃ t, maxPages - k = t + 1 := ⟨maxPages - k - 1, by omega⟩
  rw [ht]
  simp only [Nat.zero_add, List.nil_append]
  simp only [crawlEquipGo, herr]

/-- Claim C5 witness: a crawl whose very first page request fails returns
no records after exactly one request. -/
theorem crawl_failure_returns_partial_witness :
    scrapeEquipment (fun _ => PageFetch.err "socket hang up")
      (fun _ => FetchOutcome.err "x") 3 =
      { products := [], pagesFetched := 1 } := by
  have h := crawl_failure_returns_partial (fun _ => PageFetch.err "socket hang up")
    (fun _ => FetchOutcome.err "x") 3 0 "socket hang up" (by decide)
    (fun j hj => absurd hj (Nat.not_lt_zero j)) rfl
  simpa [pagesConcatEquip] using h

/-- Claim C3: in both crawls, a page whose parsed tile count is strictly
below the nominal page size (twelve for the equipment crawl, the twenty of
the short-page check for the Tractor House crawl) has its records kept and
ends the crawl with no further page fetched: the request count equals the
index of the short page. -/
theorem short_page_ends_crawl :
    (∀ (fetchPage : Nat → PageFetch) (details : Product → FetchOutcome)
        (maxPages m : Nat) (tiles : List RawTile),
      m < maxPages →
      (∀ j, j < m → ∃ t, fetchPage j = PageFetch.ok t ∧ productsPerPage ≤ t.length) →
      fetchPage m = PageFetch.ok tiles →
      tiles.length < productsPerPage →
      scrapeEquipment fetchPage details maxPages =
        { products := pagesConcatEquip fetchPage details 0 m ++
            pageRecordsEquip fetchPage details m,
          pagesFetched := m + 1 }) ∧
    (∀ (fetchPage : Nat → THPage) (m : Nat),
      m + 1 ≤ thMaxPages →
      (∀ j, 1 ≤ j → j ≤ m →
        thPageThreshold ≤ (fetchPage j).items.length ∧ (fetchPage j).hasNext = true) →
      (fetchPage (m + 1)).items.length < thPageThreshold →
      scrapeInventoryListings fetchPage =
        { listings := processScrapedPage (fetchPage (m + 1)).items
            (thPagesAcc fetchPage 1 m []),
          pagesFetched := m + 1 }) := by
  constructor
  · intro fetchPage details maxPages m tiles hm hfull hok hshort
    unfold scrapeEquipment
    rw [crawlEquipGo_full_pages fetchPage details m maxPages 0 [] (by omega)
      (by intro j hj; simpa using hfull j hj)]
    obtain ⟨t, ht⟩ : ∃ t, maxPages - m = t + 1 := ⟨maxPages - m - 1, by omega⟩
    rw [ht]
    simp only [Nat.zero_add, List.nil_append]
    have h12 : productsPerPage = 12 := rfl
    by_cases h0 : tiles.length = 0
    · have htiles : tiles = [] := List.length_eq_zero.mp h0
      subst htiles
      simp only [crawlEquipGo, hok]
      rw [if_pos h0]
      have hpr : pageRecordsEquip fetchPage details m = [] := by
        simp [pageRecordsEquip, hok, processBatch, processBatchGo]
      rw [hpr, List.append_nil]
    · simp only [crawlEquipGo, hok]
      rw [if_neg h0, if_neg (by omega)]
      have hpr : pageRecordsEquip fetchPage details m =
          processBatch (tiles.map extractProduct) 10 (enrichProduct details) := by
        simp [pageRecordsEquip, hok]
      rw [hpr]
  · intro fetchPage m hm hfull hshort
    have h50 : thMaxPages = 50 := rfl
    unfold scrapeInventoryListings
    rw [crawlTHGo_full_pages fetchPage m thMaxPages 1 0 [] (by omega)
      (by intro j hj; exact hfull (1 + j) (by omega) (by omega))]
    obtain ⟨t, ht⟩ : ∃ t, thMaxPages - m = t + 1 := ⟨thMaxPages - m - 1, by omega⟩
    rw [ht]
    have hidx : 1 + m = m + 1 := Nat.add_comm 1 m
    rw [hidx]
    simp only [Nat.zero_add]
    by_cases h0 : (fetchPage (m + 1)).items.length = 0
    · have hempty : (fetchPage (m + 1)).items = [] := List.length_eq_zero.mp h0
      simp only [crawlTHGo]
      rw [if_pos h0, hempty]
      rfl
    · simp only [crawlTHGo]
      rw [if_neg h0, if_pos (Or.inr hshort)]

/-- Claim C3 witness: both crawls applied to oracles whose first page is
empty, hence short; each stops after exactly one page request. -/
theorem short_page_ends_crawl_witness :
    scrapeEquipment (fun _ => PageFetch.ok []) (fun _ => FetchOutcome.err "x") 5 =
      { products := [], pagesFetched := 1 } ∧
    scrapeInventoryListings (fun _ => { items := [], hasNext := true }) =
      { listings := [], pagesFetched := 1 } := by
  constructor
  · have h := short_page_ends_crawl.1 (fun _ => PageFetch.ok [])
      (fun _ => FetchOutcome.err "x") 5 0 [] (by decide)
      (fun j hj => absurd hj (Nat.not_lt_zero j)) rfl (by decide)
    simpa [pagesConcatEquip, pageRecordsEquip, processBatch, processBatchGo] using h
  · have h := short_page_ends_crawl.2 (fun _ => { items := [], hasNext := true }) 0
      (by decide) (fun j h1 h2 => absurd (Nat.le_trans h1 h2) (by decide)) (by decide)
    simpa [thPagesAcc, processScrapedPage] using h

/-! Helper lemmas about the Tractor House keep filter. -/

/-- Items present after processing one page either were already accumulated
or pass the keep test. -/
theorem processScrapedPage_mem (items : List THItem) :
    ∀ (acc : List THItem) (it : THItem), it ∈ processScrapedPage items acc →
      it ∈ acc ∨ keepTHItem it = true := by
  induction items with
  | nil =>
    intro acc it h
    exact Or.inl h
  | cons x xs ih =>
    intro acc it h
    unfold processScrapedPage at h ih
    rw [List.foldl_cons] at h
    rcases ih _ it h with hmem | hkeep
    · by_cases hk : keepTHItem (cleanTHItem x) = true
      · rw [if_pos hk] at hmem
        rcases List.mem_append.mp hmem with h1 | h2
        · exact Or.inl h1
        · rcases List.mem_singleton.mp h2 with rfl
          exact Or.inr hk
      · rw [if_neg hk] at hmem
        exact Or.inl hmem
    · exact Or.inr hkeep

/-- Listings produced by the Tractor House crawl loop either were already
accumulated or pass the keep test. -/
theorem crawlTHGo_mem (fetchPage : Nat → THPage) :
    ∀ (fuel pageNum fetched : Nat) (acc : List THItem) (it : THItem),
      it ∈ (crawlTHGo fetchPage fuel pageNum fetched acc).listings →
      it ∈ acc ∨ keepTHItem it = true := by
  intro fuel
  induction fuel with
  | zero =>
    intro pageNum fetched acc it h
    exact Or.inl h
  | succ f ih =>
    intro pageNum fetched acc it h
    simp only [crawlTHGo] at h
    by_cases h0 : (fetchPage pageNum).items.length = 0
    · rw [if_pos h0] at h
      exact Or.inl h
    · rw [if_neg h0] at h
      by_cases hstop : (fetchPage pageNum).hasNext = false ∨
          (fetchPage pageNum).items.length < thPageThreshold
      · rw [if_pos hstop] at h
        exact processScrapedPage_mem _ _ _ h
      · rw [if_neg hstop] at h
        rcases ih _ _ _ it h with hmem | hkeep
        · exact processScrapedPage_mem _ _ _ hmem
        · exact Or.inr hkeep

/-- Unfolding of the page processing over the first scraped item. -/
theorem processScrapedPage_cons (x : THItem) (xs acc : List THItem) :
    processScrapedPage (x :: xs) acc =
      processScrapedPage xs
        (if keepTHItem (cleanTHItem x) = true then acc ++ [cleanTHItem x] else acc) := rfl

/-- Length of the processed page output is bounded by the accumulator plus
the parsed tile count. -/
theorem processScrapedPage_length (items : List THItem) :
    ∀ acc : List THItem,
      (processScrapedPage items acc).length ≤ acc.length + items.length := by
  induction items with
  | nil =>
    intro acc
    simp [processScrapedPage]
  | cons x xs ih =>
    intro acc
    rw [processScrapedPage_cons]
    by_cases hk : keepTHItem (cleanTHItem x) = true
    · rw [if_pos hk]
      have := ih (acc ++ [cleanTHItem x])
      simp only [List.length_append, List.length_singleton, List.length_cons, List.length_nil] at this ⊢
      omega
    · rw [if_neg hk]
      have := ih acc
      simp only [List.length_cons]
      omega

/-- Claim C9: every listing returned by the Tractor House crawl has a
non-empty title, model, or make; the per-page processing never returns more
items than were parsed; and a parsed tile whose title, make, and model are
all empty is silently dropped, so the returned listing count can be
strictly smaller than the number of tiles parsed. -/
theorem th_listings_meaningful :
    (∀ (fetchPage : Nat → THPage) (it : THItem),
      it ∈ (scrapeInventoryListings fetchPage).listings →
      it.title ≠ "" ∨ it.model ≠ "" ∨ it.make ≠ "") ∧
    (∀ items acc : List THItem,
      (processScrapedPage items acc).length ≤ acc.length + items.length) ∧
    ((fun _ => ({ items := [thItemEmpty], hasNext := false } : THPage)) 1).items.length = 1 ∧
    (scrapeInventoryListings
      (fun _ => ({ items := [thItemEmpty], hasNext := false } : THPage))).listings = [] := by
  refine ⟨?_, processScrapedPage_length, by decide, by decide⟩
  intro fetchPage it h
  rcases crawlTHGo_mem fetchPage thMaxPages 1 0 [] it h with hmem | hkeep
  · exact absurd hmem (List.not_mem_nil it)
  · have h2 : (¬it.title = "" ∨ ¬it.model = "") ∨ ¬it.make = "" := by
      simpa [keepTHItem] using hkeep
    tauto

/-- Claim C9 witness: the membership part applied to a crawl whose single
page holds one meaningful listing. -/
theorem th_listings_meaningful_witness :
    thItemGood.title ≠ "" ∨ thItemGood.model ≠ "" ∨ thItemGood.make ≠ "" :=
  th_listings_meaningful.1
    (fun _ => { items := [thItemGood], hasNext := false }) thItemGood (by decide)

/-! Helper lemmas about the aggregation statistics. -/

/-- Lookup after a map insertion. -/
theorem mapGet_mapSet {α : Type} (m : List (String × α)) (k k2 : String) (v : α) :
    mapGet (mapSet m k v) k2 = if k2 = k then some v else mapGet m k2 := by
  induction m with
  | nil =>
    simp only [mapSet, mapGet]
    by_cases h : k = k2
    · simp only [if_pos h, if_pos h.symm]
    · have h' : ¬(k2 = k) := fun hh => h hh.symm
      simp only [if_neg h, if_neg h']
  | cons hd tl ih =>
    simp only [mapSet]
    by_cases h1 : hd.1 = k
    · simp only [if_pos h1, mapGet]
      by_cases h2 : k = k2
      · simp only [if_pos h2, if_pos h2.symm]
      · have h2a : ¬(k2 = k) := fun hh => h2 hh.symm
        have h2b : ¬(hd.1 = k2) := fun hh => h2 (h1.symm.trans hh)
        simp only [if_neg h2, if_neg h2a, if_neg h2b]
    · simp only [if_neg h1, mapGet, ih]
      by_cases h2 : hd.1 = k2
      · by_cases h3 : k2 = k
        · exact absurd (h2.trans h3) h1
        · simp only [if_pos h2, if_neg h3]
      · by_cases h3 : k2 = k
        · simp only [if_neg h2, if_pos h3]
        · simp only [if_neg h2, if_neg h3]

/-- Row processing preserves the counter invariant on every entry of the
statistics table. -/
theorem statsUpdate_preserves (stats : List (String × LocCounts)) (row : RowInfo)
    (h : ∀ l c0, mapGet stats l = some c0 → statOK c0) :
    ∀ l c0, mapGet (statsUpdate stats row) l = some c0 → statOK c0 := by
  intro l c0 hc
  unfold statsUpdate at hc
  cases hl : row.location with
  | none =>
    rw [hl] at hc
    exact h l c0 hc
  | some loc =>
    rw [hl] at hc
    rw [mapGet_mapSet] at hc
    by_cases hll : l = loc
    · rw [if_pos hll] at hc
      have hbase : statOK ((mapGet stats loc).getD
          { total := 0, new := 0, used := 0, tractorHouse := 0 }) := by
        cases hget : mapGet stats loc with
        | none => simp [statOK]
        | some c1 => exact h loc c1 hget
      set cur0 := (mapGet stats loc).getD
        { total := 0, new := 0, used := 0, tractorHouse := 0 } with hcur0
      have hc2 := Option.some.inj hc
      subst hc2
      unfold statOK at hbase ⊢
      split_ifs <;> simp <;> omega
    · rw [if_neg hll] at hc
      exact h l c0 hc

/-- Claim C10: after aggregating any row sequence, every location entry of
the reconciliation statistics satisfies new plus used plus tractorHouse at
most total: each located row increments the total exactly once and at most
one per-source counter. -/
theorem aggregation_counters_bounded (rows : List RowInfo) (loc : String) (c : LocCounts)
    (hc : mapGet (analyzeRows rows) loc = some c) :
    c.new + c.used + c.tractorHouse ≤ c.total := by
  suffices hgen : ∀ (rs : List RowInfo) (stats : List (String × LocCounts)),
      (∀ l c0, mapGet stats l = some c0 → statOK c0) →
      ∀ l c0, mapGet (rs.foldl statsUpdate stats) l = some c0 → statOK c0 by
    exact hgen rows [] (by intro l c0 h0; simp [mapGet] at h0) loc c hc
  intro rs
  induction rs with
  | nil =>
    intro stats h
    exact h
  | cons r rest ih =>
    intro stats h
    rw [List.foldl_cons]
    exact ih _ (statsUpdate_preserves stats r h)

/-- Claim C10 witness: the invariant applied to the entry produced by three
concrete located rows. -/
theorem aggregation_counters_bounded_witness :
    ({ total := 3, new := 1, used := 0, tractorHouse := 1 } : LocCounts).new +
      ({ total := 3, new := 1, used := 0, tractorHouse := 1 } : LocCounts).used +
      ({ total := 3, new := 1, used := 0, tractorHouse := 1 } : LocCounts).tractorHouse ≤
      ({ total := 3, new := 1, used := 0, tractorHouse := 1 } : LocCounts).total :=
  aggregation_counters_bounded [rowPlain, rowNew, rowTH] "YORK"
    { total := 3, new := 1, used := 0, tractorHouse := 1 } (by decide)

end Akrs
